import Mathlib

/-
Verification of the chimera-go streaming server (src/main.go).

The development shallowly embeds the parts of the program the claims are
about:

* the session lifecycle model: connection-state notifications and the
  activeStreams gauge (handleOffer's OnConnectionStateChange handler),
  the session registry (registerSession / unregisterSession /
  updateSessionFFmpeg), the stale-session reaper (cleanupStaleSessions),
  the request validation in handleOffer, the spawn phase of startFFmpeg,
  and the statistics endpoint handleStats;
* the bitstream reframer: the bufio.SplitFunc scanNALUs together with the
  start-code normalization performed in startFFmpeg's delivery loop.

Go byte slices are modelled as List Nat (each entry a byte value), Go int /
int64 as Int where sign matters and Nat where only non-negative values
occur, maps as association lists keyed by session id, and time.Time /
time.Duration as seconds in Nat.  Everything is computable so that the
theorems can be evaluated on concrete inputs.
-/

set_option maxHeartbeats 1000000

namespace Chimera

/-- Connection states of the transport peer (webrtc.PeerConnectionState). -/
inductive PeerConnectionState
  | new
  | connecting
  | connected
  | disconnected
  | failed
  | closed
deriving DecidableEq

/-- The states the handler in main.go lines 211-213 treats as terminal
(Disconnected, Failed, Closed). -/
def isTerminal : PeerConnectionState → Bool
  | .disconnected => true
  | .failed => true
  | .closed => true
  | _ => false

/-- Effect of one OnConnectionStateChange notification on the activeStreams
gauge (main.go 205-221): Connected adds 1, and each notification of
Disconnected, Failed or Closed subtracts 1 (the handler has no guard
remembering that a decrement already happened); the remaining states leave
the gauge unchanged. -/
def onConnectionStateChange (g : Int) : PeerConnectionState → Int
  | .connected => g + 1
  | .disconnected => g - 1
  | .failed => g - 1
  | .closed => g - 1
  | _ => g

/-- Gauge value after a sequence of connection-state notifications has been
delivered to the handler of main.go 205-221. -/
def runConnectionNotifications (g : Int) (l : List PeerConnectionState) : Int :=
  l.foldl onConnectionStateChange g

/-- Registry view of a StreamSession (main.go 42-49): its id, whether an
FFmpegCmd with a live process is attached (hasProc), its StartTime in
seconds, and the transport connection state consulted by the reaper. -/
structure SessionRec where
  id : String
  hasProc : Bool
  startTime : Nat
  state : PeerConnectionState
deriving DecidableEq

/-- registerSession (main.go 454-459): map insert under the registry lock,
overwriting any previous entry with the same id. -/
def registerSession (reg : List SessionRec) (s : SessionRec) : List SessionRec :=
  s :: reg.filter (fun t => !(t.id == s.id))

/-- unregisterSession (main.go 461-474): if the id is present, send a kill
signal to its subprocess when a handle is attached (FFmpegCmd != nil &&
Process != nil) and delete the entry; otherwise do nothing.  The second
component counts the kill signals issued by the call. -/
def unregisterSession (reg : List SessionRec) (sid : String) :
    List SessionRec × Nat :=
  match reg.find? (fun s => s.id == sid) with
  | some s => (reg.filter (fun t => !(t.id == sid)), if s.hasProc then 1 else 0)
  | none => (reg, 0)

/-- updateSessionFFmpeg (main.go 476-484): attach the subprocess handle to
the session with the given id, if it is still registered. -/
def updateSessionFFmpeg (reg : List SessionRec) (sid : String) :
    List SessionRec :=
  reg.map (fun s => if s.id == sid then { s with hasProc := true } else s)

/-- One sweep of cleanupStaleSessions (main.go 486-515) at time `now` in
seconds: an entry is removed exactly when it is older than 10 minutes
(600 s) AND its connection state is one of Disconnected, Failed, Closed.
Sessions in any other state are kept regardless of age. -/
def cleanupStaleSessions (now : Nat) (reg : List SessionRec) :
    List SessionRec :=
  reg.filter (fun s => !(decide (600 < now - s.startTime) && isTerminal s.state))

/-- The possible outcomes of the spawn phase of startFFmpeg
(main.go 299-354), as decided by the environment. -/
inductive SpawnEnv
  | ctxCanceled
  | stdoutPipeFail
  | stderrPipeFail
  | startFail
  | started
deriving DecidableEq

/-- Spawn phase of startFFmpeg (main.go 299-354): when the context is already
canceled, a pipe cannot be created, or cmd.Start fails, the function logs and
returns without touching the registry and without any teardown; on success it
attaches the handle via updateSessionFFmpeg.  The Nat component counts kill
signals issued during this phase (none on any path). -/
def startFFmpeg (env : SpawnEnv) (reg : List SessionRec) (sid : String) :
    List SessionRec × Nat :=
  match env with
  | .ctxCanceled => (reg, 0)
  | .stdoutPipeFail => (reg, 0)
  | .stderrPipeFail => (reg, 0)
  | .startFail => (reg, 0)
  | .started => (updateSessionFFmpeg reg sid, 0)

/-- Decoded body of a POST /offer request (main.go 34-40). -/
structure OfferRequest where
  sdp : String
  codec : String
  width : Int
  height : Int
  fps : Int
deriving DecidableEq

/-- The server state touched by handleOffer: the session registry and a
counter of peer connections created so far (evidence of collaborator
activity). -/
structure ServerState where
  registry : List SessionRec
  peersCreated : Nat
deriving DecidableEq

/-- HTTP outcome of handleOffer. -/
inductive OfferOutcome
  | clientError (msg : String)
  | serverError (msg : String)
  | answer
deriving DecidableEq

/-- Which collaborator step fails during session setup, if any
(main.go 183-284). -/
inductive SetupEnv
  | pcFail
  | trackFail
  | addTrackFail
  | remoteDescFail
  | createAnswerFail
  | localDescFail
  | allOk
deriving DecidableEq

/-- Session setup phase of handleOffer (main.go 176-297), reached only after
validation has passed: the peer connection is created first (a failure there
leaves the state untouched), then the session is registered, and every later
failure path unwinds with sessionCancel + unregisterSession + pc.Close and a
500 server error. -/
def setupSession (env : SetupEnv) (sid : String) (now : Nat)
    (st : ServerState) : ServerState × OfferOutcome :=
  match env with
  | .pcFail => (st, .serverError "Internal server error")
  | envRest =>
    let st1 : ServerState := { st with peersCreated := st.peersCreated + 1 }
    let st2 : ServerState :=
      { st1 with registry := registerSession st1.registry ⟨sid, false, now, .new⟩ }
    match envRest with
    | .trackFail | .addTrackFail | .remoteDescFail | .createAnswerFail | .localDescFail =>
      ({ st2 with registry := (unregisterSession st2.registry sid).1 },
       .serverError "Internal server error")
    | _ => (st2, .answer)

/-- handleOffer (main.go 157-297) after JSON decoding: validation of width,
height and fps happens first and returns a 400 client error before the peer
connection is created, before the session is registered and before any
encoder is started; otherwise setup proceeds via setupSession. -/
def handleOffer (env : SetupEnv) (sid : String) (now : Nat)
    (st : ServerState) (req : OfferRequest) : ServerState × OfferOutcome :=
  if req.width ≤ 0 ∨ 3840 < req.width ∨ req.height ≤ 0 ∨ 2160 < req.height then
    (st, .clientError "Invalid resolution")
  else if req.fps ≤ 0 ∨ 144 < req.fps then
    (st, .clientError "Invalid FPS")
  else
    setupSession env sid now st

/-- JSON body produced by handleStats (main.go 558-578).  drop_rate_percent
is modelled in exact rational arithmetic in place of Go float64. -/
structure StatsResponse where
  activeStreams : Int
  framesProcessed : Int
  framesDropped : Int
  dropRatePercent : ℚ
  timestamp : Nat
deriving DecidableEq

/-- handleStats (main.go 558-578): dropRate = dropped/processed*100 when
processed > 0, and keeps its zero value otherwise. -/
def handleStats (processed dropped active : Int) (ts : Nat) : StatsResponse :=
  { activeStreams := active
    framesProcessed := processed
    framesDropped := dropped
    dropRatePercent :=
      if 0 < processed then ((dropped : ℚ) / (processed : ℚ)) * 100 else 0
    timestamp := ts }

/-! ### The bitstream reframer (scanNALUs, main.go 110-155)

Bytes are Nat values; a Go slice is a List Nat.  All Go index comparisons of
the form i <= len(data)-k (over signed ints) are written i + k ≤ length.
The Go loops are index recursions; they are given as structural recursions
on an explicit iteration budget (fuel) so that every definition evaluates by
kernel reduction, with the Go loop guard kept as an explicit test inside,
and the budget chosen large enough that it never cuts a loop short. -/

/-- Condition of the inner search loop in the 4-byte branch of scanNALUs
(main.go 127-129): data[j]==0 && data[j+1]==0 && ((data[j+2]==0 &&
data[j+3]==1) || (j <= len(data)-3 && data[j+2]==1)). -/
def next4Cond (d : List Nat) (j : Nat) : Bool :=
  d.getD j 0 == 0 && d.getD (j+1) 0 == 0 &&
    ((d.getD (j+2) 0 == 0 && d.getD (j+3) 0 == 1) ||
     (decide (j + 3 ≤ d.length) && d.getD (j+2) 0 == 1))

/-- Condition of the inner search loop in the 3-byte branch of scanNALUs
(main.go 142-143): data[j]==0 && data[j+1]==0 && (data[j+2]==1 ||
(j <= len(data)-4 && data[j+2]==0 && data[j+3]==1)). -/
def next3Cond (d : List Nat) (j : Nat) : Bool :=
  d.getD j 0 == 0 && d.getD (j+1) 0 == 0 &&
    (d.getD (j+2) 0 == 1 ||
     (decide (j + 4 ≤ d.length) && d.getD (j+2) 0 == 0 && d.getD (j+3) 0 == 1))

/-- 4-byte start-code test of the outer loop (main.go 121):
data[i]==0 && data[i+1]==0 && data[i+2]==0 && data[i+3]==1. -/
def code4At (d : List Nat) (i : Nat) : Bool :=
  d.getD i 0 == 0 && d.getD (i+1) 0 == 0 && d.getD (i+2) 0 == 0 &&
    d.getD (i+3) 0 == 1

/-- 3-byte start-code test of the outer loop (main.go 136):
i <= len(data)-3 && data[i]==0 && data[i+1]==0 && data[i+2]==1. -/
def code3At (d : List Nat) (i : Nat) : Bool :=
  decide (i + 3 ≤ d.length) && d.getD i 0 == 0 && d.getD (i+1) 0 == 0 &&
    d.getD (i+2) 0 == 1

/-- A linear search loop: starting at j, while j + w ≤ length (the Go guard
j <= len(data)-w), return the first j satisfying c; fuel only bounds the
recursion and never runs out when it starts at least length + 1 - j. -/
def scanFrom (d : List Nat) (c : List Nat → Nat → Bool) (w : Nat) :
    Nat → Nat → Option Nat
  | _, 0 => none
  | j, fuel + 1 =>
    if j + w ≤ d.length then
      if c d j then some j else scanFrom d c w (j + 1) fuel
    else none

/-- Inner loop of the 4-byte branch (main.go 126-132), searching from j. -/
def findNext4 (d : List Nat) (j : Nat) : Option Nat :=
  scanFrom d next4Cond 4 j (d.length + 1)

/-- Inner loop of the 3-byte branch (main.go 141-146), searching from j. -/
def findNext3 (d : List Nat) (j : Nat) : Option Nat :=
  scanFrom d next3Cond 3 j (d.length + 1)

/-- The 4-byte branch of the outer loop at index i (main.go 121-133): on a
4-byte start code at i, either report the prefix data[:i] (i > 0) or search
for the next start code from i+4 and report data[:j]; none when the branch
returns nothing (also when the inner search fails, in which case control
falls through to the 3-byte branch at the same i). -/
def branch4 (d : List Nat) (i : Nat) : Option (Nat × List Nat) :=
  if code4At d i then
    if 0 < i then some (i, d.take i)
    else (findNext4 d (i + 4)).map (fun j => (j, d.take j))
  else none

/-- The 3-byte branch of the outer loop at index i (main.go 136-147). -/
def branch3 (d : List Nat) (i : Nat) : Option (Nat × List Nat) :=
  if code3At d i then
    if 0 < i then some (i, d.take i)
    else (findNext3 d (i + 3)).map (fun j => (j, d.take j))
  else none

/-- The outer loop of scanNALUs (main.go 119-148): for i from its start
value while i <= len(data)-4, try the 4-byte branch, then the 3-byte branch,
else move to i+1; none when the loop finishes without returning. -/
def scanLoop (d : List Nat) : Nat → Nat → Option (Nat × List Nat)
  | _, 0 => none
  | i, fuel + 1 =>
    if i + 4 ≤ d.length then
      match branch4 d i with
      | some r => some r
      | none =>
        match branch3 d i with
        | some r => some r
        | none => scanLoop d (i + 1) fuel
    else none

/-- Result of one bufio.SplitFunc call: bytes to advance, the token if any,
and the error — scanNALUs returns nil on every path, recorded here so the
statement "the scanner never fails" is about the function itself. -/
structure ScanResult where
  advance : Nat
  token : Option (List Nat)
  err : Option String
deriving DecidableEq

/-- scanNALUs (main.go 110-155): buffers shorter than 4 bytes are emitted
whole at EOF and otherwise suspended on; longer buffers run the outer loop,
and when it finds nothing the whole buffer is emitted at EOF or suspended
on otherwise. -/
def scanNALUs (data : List Nat) (atEOF : Bool) : ScanResult :=
  if data.length < 4 then
    if atEOF && decide (0 < data.length) then ⟨data.length, some data, none⟩
    else ⟨0, none, none⟩
  else
    match scanLoop data 0 (data.length + 1) with
    | some (adv, tok) => ⟨adv, some tok, none⟩
    | none =>
      if atEOF && decide (0 < data.length) then ⟨data.length, some data, none⟩
      else ⟨0, none, none⟩

/-- The bufio.Scanner driver of the delivery loop (main.go 374-394) once the
encoder's output has ended: with the whole remaining stream buffered and
atEOF = true, repeatedly apply scanNALUs, consume advance bytes and collect
the returned token, until a call returns no token.  The fuel equals the
buffer length; each productive call advances by at least one byte, so it is
never exhausted early. -/
def emitAllAux : Nat → List Nat → List (List Nat)
  | 0, _ => []
  | fuel + 1, d =>
    match scanNALUs d true with
    | ⟨_, none, _⟩ => []
    | ⟨adv, some t, _⟩ => t :: emitAllAux fuel (d.drop adv)

/-- All tokens the reframer emits for a fully buffered stream. -/
def emitAll (d : List Nat) : List (List Nat) :=
  emitAllAux d.length d

/-- Start-code forms of the Annex-B framing. -/
inductive SCForm
  | three
  | four
deriving DecidableEq

/-- The marker bytes of a start-code form. -/
def SCForm.code : SCForm → List Nat
  | .three => [0, 0, 1]
  | .four => [0, 0, 0, 1]

/-- A well-formed access unit: a start code followed by its payload. -/
structure AUnit where
  form : SCForm
  payload : List Nat
deriving DecidableEq

/-- The byte representation of an access unit. -/
def AUnit.bytes (u : AUnit) : List Nat :=
  u.form.code ++ u.payload

/-- Byte stream of a sequence of access units. -/
def concatUnits (us : List AUnit) : List Nat :=
  (us.map AUnit.bytes).flatten

/-- No two adjacent zero bytes — the property a well-formed Annex-B payload
has thanks to emulation prevention, and the property that keeps every start
code detector of scanNALUs silent inside a payload. -/
def noDZ : List Nat → Bool
  | [] => true
  | [_] => true
  | a :: b :: t => !(a == 0 && b == 0) && noDZ (b :: t)

/-- Payload well-formedness used throughout: non-empty, no two adjacent zero
bytes, and a non-zero final byte (so the byte before the next start code is
never mistaken for the beginning of that start code). -/
def cleanPayload (p : List Nat) : Bool :=
  !p.isEmpty && noDZ p && (p.getD (p.length - 1) 0 != 0)

/-- What the scanner driver emits for the final unit of a stream: a unit
delimited by the 3-byte form comes out whole; one delimited by the 4-byte
form comes out as a spurious single zero byte followed by the unit with its
start code truncated to the 3-byte form. -/
def tailEmission (u : AUnit) : List (List Nat) :=
  match u.form with
  | .three => [u.bytes]
  | .four => [[0], SCForm.three.code ++ u.payload]

/-- Start-code normalization before forwarding (main.go 401-409): only a
unit that carries neither the 4-byte nor the 3-byte prefix gets the 4-byte
start code prepended; otherwise the unit is forwarded as it is. -/
def ensureStartCode (nalu : List Nat) : List Nat :=
  if !(decide (nalu.take 4 = [0, 0, 0, 1])) && !(decide (nalu.take 3 = [0, 0, 1])) then
    [0, 0, 0, 1] ++ nalu
  else nalu

/-- Per-token forwarding step of the delivery loop (main.go 394-414): tokens
of length ≤ 4 are discarded; longer ones are normalized by ensureStartCode
and written to the track. -/
def forwardNALU (nalu : List Nat) : Option (List Nat) :=
  if 4 < nalu.length then some (ensureStartCode nalu) else none

section LifecycleProofs

/-- Folding the notification handler over terminal notifications only
subtracts one per notification. -/
lemma foldl_terminal (l : List PeerConnectionState) :
    ∀ g : Int, (∀ s ∈ l, isTerminal s = true) →
      l.foldl onConnectionStateChange g = g - l.length := by
  induction l with
  | nil => intro g _; simp
  | cons s t ih =>
    intro g h
    have hs : isTerminal s = true := h s (by simp)
    have hstep : onConnectionStateChange g s = g - 1 := by
      cases s
      case disconnected => rfl
      case failed => rfl
      case closed => rfl
      all_goals simp [isTerminal] at hs
    rw [List.foldl_cons, hstep, ih (g - 1) (fun x hx => h x (List.mem_cons_of_mem s hx))]
    simp only [List.length_cons]
    push_cast
    ring

/-- Claim C3 (amended): once Connected has been observed, every terminal
notification decrements the activeStreams gauge again — there is no guard —
so after the Connected notification and k terminal notifications the gauge
has changed by 1 - k, not necessarily by 0. -/
theorem gauge_net_change (g : Int) (l : List PeerConnectionState)
    (h : ∀ s ∈ l, isTerminal s = true) :
    runConnectionNotifications g (PeerConnectionState.connected :: l) =
      g + 1 - l.length := by
  have hc : onConnectionStateChange g PeerConnectionState.connected = g + 1 := rfl
  rw [runConnectionNotifications, List.foldl_cons, hc, foldl_terminal l (g + 1) h]

/-- Witness for gauge_net_change at the concrete run Connected, Disconnected,
Closed starting from gauge 0. -/
theorem gauge_net_change_w :
    runConnectionNotifications 0
      [PeerConnectionState.connected, PeerConnectionState.disconnected,
        PeerConnectionState.closed] = -1 := by
  have h := gauge_net_change 0
    [PeerConnectionState.disconnected, PeerConnectionState.closed] (by decide)
  simpa using h

/-- Claim C3 counterexample: for the notification sequence Connected,
Disconnected, Closed (Connected observed before any terminal state, then two
terminal notifications for the same session) the net gauge change is -1, not
0: the handler decrements once per terminal notification. -/
theorem gauge_double_decrement :
    runConnectionNotifications 0
      [PeerConnectionState.connected, PeerConnectionState.disconnected,
        PeerConnectionState.closed] = -1 ∧ (-1 : Int) ≠ 0 := by
  constructor
  · decide
  · decide

/-- Claim C5: any offer whose width, height or fps is out of range is
answered with a client error while the server state — registry and peer
connections — is left exactly as it was, whatever the collaborator
environment would have done later. -/
theorem handleOffer_validates_first (env : SetupEnv) (sid : String) (now : Nat)
    (st : ServerState) (req : OfferRequest)
    (h : ¬(0 < req.width ∧ req.width ≤ 3840) ∨
         ¬(0 < req.height ∧ req.height ≤ 2160) ∨
         ¬(0 < req.fps ∧ req.fps ≤ 144)) :
    (handleOffer env sid now st req).1 = st ∧
    ∃ msg, (handleOffer env sid now st req).2 = OfferOutcome.clientError msg := by
  by_cases h1 : req.width ≤ 0 ∨ 3840 < req.width ∨ req.height ≤ 0 ∨ 2160 < req.height
  · rw [handleOffer, if_pos h1]
    exact ⟨rfl, "Invalid resolution", rfl⟩
  · have h2 : req.fps ≤ 0 ∨ 144 < req.fps := by
      push_neg at h1
      rcases h with h | h | h
      · exact absurd ⟨by omega, by omega⟩ h
      · exact absurd ⟨by omega, by omega⟩ h
      · omega
    rw [handleOffer, if_neg h1, if_pos h2]
    exact ⟨rfl, "Invalid FPS", rfl⟩

/-- Witness for handleOffer_validates_first: a request with width 7000 is
rejected as a client error with no state change, in any environment. -/
theorem handleOffer_validates_first_w :
    (handleOffer SetupEnv.allOk "s" 0 ⟨[], 0⟩ ⟨"sdp", "h264", 7000, 1080, 30⟩).1 =
      (⟨[], 0⟩ : ServerState) ∧
    ∃ msg, (handleOffer SetupEnv.allOk "s" 0 ⟨[], 0⟩
        ⟨"sdp", "h264", 7000, 1080, 30⟩).2 = OfferOutcome.clientError msg :=
  handleOffer_validates_first SetupEnv.allOk "s" 0 ⟨[], 0⟩
    ⟨"sdp", "h264", 7000, 1080, 30⟩ (Or.inl (by decide))

/-- Claim C6: unregisterSession is idempotent — after one call the id is
gone from the registry, a second call changes nothing, and the two calls
together issue at most one kill signal. -/
theorem unregister_idempotent (reg : List SessionRec) (sid : String) :
    (unregisterSession reg sid).1.find? (fun s => s.id == sid) = none ∧
    unregisterSession (unregisterSession reg sid).1 sid =
      ((unregisterSession reg sid).1, 0) ∧
    (unregisterSession reg sid).2 +
      (unregisterSession (unregisterSession reg sid).1 sid).2 ≤ 1 := by
  cases hf : reg.find? (fun s => s.id == sid) with
  | none =>
    have h1 : unregisterSession reg sid = (reg, 0) := by
      rw [unregisterSession, hf]
    refine ⟨by rw [h1]; exact hf, ?_, ?_⟩
    · rw [h1]
      rw [unregisterSession, hf]
    · rw [h1]
      simp [unregisterSession, hf]
  | some s =>
    have h1 : unregisterSession reg sid =
        (reg.filter (fun t => !(t.id == sid)), if s.hasProc then 1 else 0) := by
      rw [unregisterSession, hf]
    have hnone : (reg.filter (fun t => !(t.id == sid))).find?
        (fun s => s.id == sid) = none := by
      rw [List.find?_eq_none]
      intro x hx
      have := (List.mem_filter.mp hx).2
      simpa using this
    refine ⟨by rw [h1]; exact hnone, ?_, ?_⟩
    · rw [h1]
      rw [unregisterSession, hnone]
    · rw [h1]
      simp only [unregisterSession, hnone]
      cases s.hasProc <;> simp

/-- Claim C7 (amended): after one reaper sweep a session survives exactly
when it was registered and NOT (older than 10 minutes AND in a terminal
state); in particular a session that never received any connection-state
notification (state .new) is never evicted, however old it is. -/
theorem cleanup_membership (now : Nat) (reg : List SessionRec) (s : SessionRec) :
    s ∈ cleanupStaleSessions now reg ↔
      s ∈ reg ∧ ¬(600 < now - s.startTime ∧ isTerminal s.state = true) := by
  rw [cleanupStaleSessions, List.mem_filter]
  have hb : (!(decide (600 < now - s.startTime) && isTerminal s.state)) = true ↔
      ¬(600 < now - s.startTime ∧ isTerminal s.state = true) := by
    by_cases hA : 600 < now - s.startTime <;> cases hT : isTerminal s.state <;>
      simp [hA, hT]
  rw [hb]

/-- Claim C7 counterexample: a session created at time 0 that never received
any notification (state .new) is still in the registry after the sweep at
time 700 s, although its age 700 s exceeds the 600 s threshold — the sweep
evicts only terminal-state sessions. -/
theorem stale_nonterminal_not_evicted :
    cleanupStaleSessions 700 [⟨"s1", false, 0, PeerConnectionState.new⟩] =
      [⟨"s1", false, 0, PeerConnectionState.new⟩] ∧ 600 < 700 - 0 := by
  constructor
  · decide
  · decide

/-- Claim C9: a spawn failure in startFFmpeg leaves the registry exactly as
it was — the session stays registered (degraded, frameless), no handle is
attached, and no kill or teardown is triggered. -/
theorem spawn_failure_degraded (reg : List SessionRec) (sid : String)
    (s : SessionRec) (hs : s ∈ reg) :
    startFFmpeg SpawnEnv.startFail reg sid = (reg, 0) ∧
    s ∈ (startFFmpeg SpawnEnv.startFail reg sid).1 := by
  exact ⟨rfl, hs⟩

/-- Witness for spawn_failure_degraded on a concrete one-session registry. -/
theorem spawn_failure_degraded_w :
    startFFmpeg SpawnEnv.startFail [⟨"a", false, 0, PeerConnectionState.new⟩] "a" =
      ([⟨"a", false, 0, PeerConnectionState.new⟩], 0) ∧
    (⟨"a", false, 0, PeerConnectionState.new⟩ : SessionRec) ∈
      (startFFmpeg SpawnEnv.startFail
        [⟨"a", false, 0, PeerConnectionState.new⟩] "a").1 :=
  spawn_failure_degraded _ _ _ (by simp)

/-- Claim C8: the drop rate reported by /stats equals 100·D/P when P > 0 and
0 when P = 0 (float64 arithmetic modelled exactly over ℚ). -/
theorem handleStats_dropRate (P D a : Int) (ts : Nat) :
    (0 < P → (handleStats P D a ts).dropRatePercent = 100 * (D : ℚ) / (P : ℚ)) ∧
    (P = 0 → (handleStats P D a ts).dropRatePercent = 0) := by
  constructor
  · intro h
    simp only [handleStats, if_pos h]
    ring
  · intro h
    subst h
    simp [handleStats]

/-- Witness for handleStats_dropRate at P = 4, D = 1 and at P = 0. -/
theorem handleStats_dropRate_w :
    (handleStats 4 1 2 3).dropRatePercent = 100 * ((1 : Int) : ℚ) / ((4 : Int) : ℚ) ∧
    (handleStats 0 5 2 3).dropRatePercent = 0 :=
  ⟨(handleStats_dropRate 4 1 2 3).1 (by norm_num),
   (handleStats_dropRate 0 5 2 3).2 rfl⟩

end LifecycleProofs

section ReframerProofs

/-- A search loop finds nothing when its condition fails everywhere the
guard admits. -/
lemma scanFrom_none (d : List Nat) (c : List Nat → Nat → Bool) (w : Nat) :
    ∀ fuel j, (∀ k, j ≤ k → k + w ≤ d.length → c d k = false) →
      scanFrom d c w j fuel = none := by
  intro fuel
  induction fuel with
  | zero => intro j _; rfl
  | succ f ih =>
    intro j h
    rw [scanFrom]
    by_cases hg : j + w ≤ d.length
    · rw [if_pos hg, h j le_rfl hg]
      exact ih (j + 1) (fun k hk hkw => h k (by omega) hkw)
    · rw [if_neg hg]

/-- A search loop returns the first admissible index satisfying its
condition, provided the fuel reaches it. -/
lemma scanFrom_found (d : List Nat) (c : List Nat → Nat → Bool) (w : Nat) :
    ∀ fuel j m, j ≤ m → m + w ≤ d.length → c d m = true →
      (∀ k, j ≤ k → k < m → c d k = false) → m + 1 ≤ j + fuel →
      scanFrom d c w j fuel = some m := by
  intro fuel
  induction fuel with
  | zero => intro j m hjm hg hc hp hf; omega
  | succ f ih =>
    intro j m hjm hg hc hp hf
    rw [scanFrom, if_pos (by omega : j + w ≤ d.length)]
    rcases Nat.eq_or_lt_of_le hjm with rfl | hlt
    · rw [hc]
      simp
    · rw [hp j le_rfl hlt]
      exact ih (j + 1) m hlt hg hc (fun k hk1 hk2 => hp k (by omega) hk2) (by omega)

/-- Any index a search loop returns is past its start and admitted by the
guard. -/
lemma scanFrom_some (d : List Nat) (c : List Nat → Nat → Bool) (w : Nat) :
    ∀ fuel j m, scanFrom d c w j fuel = some m →
      j ≤ m ∧ m + w ≤ d.length := by
  intro fuel
  induction fuel with
  | zero => intro j m h; exact absurd h (by rw [scanFrom]; simp)
  | succ f ih =>
    intro j m h
    rw [scanFrom] at h
    by_cases hg : j + w ≤ d.length
    · rw [if_pos hg] at h
      cases hc : c d j with
      | true =>
        rw [hc] at h
        have hjm : j = m := by simpa using h
        exact ⟨le_of_eq hjm, hjm ▸ hg⟩
      | false =>
        rw [hc] at h
        have h2 := ih (j + 1) m h
        exact ⟨by omega, h2.2⟩
    · rw [if_neg hg] at h
      cases h

/-- A firing 4-byte outer-loop detector implies two adjacent zero bytes. -/
lemma code4At_dz (d : List Nat) (k : Nat) (h : code4At d k = true) :
    d.getD k 0 = 0 ∧ d.getD (k+1) 0 = 0 := by
  rw [code4At] at h
  simp only [Bool.and_eq_true, beq_iff_eq] at h
  exact ⟨by tauto, by tauto⟩

/-- A firing 3-byte outer-loop detector implies two adjacent zero bytes. -/
lemma code3At_dz (d : List Nat) (k : Nat) (h : code3At d k = true) :
    d.getD k 0 = 0 ∧ d.getD (k+1) 0 = 0 := by
  rw [code3At] at h
  simp only [Bool.and_eq_true, beq_iff_eq, decide_eq_true_eq] at h
  exact ⟨by tauto, by tauto⟩

/-- A firing inner 4-byte-branch detector implies two adjacent zero bytes. -/
lemma next4Cond_dz (d : List Nat) (k : Nat) (h : next4Cond d k = true) :
    d.getD k 0 = 0 ∧ d.getD (k+1) 0 = 0 := by
  rw [next4Cond] at h
  simp only [Bool.and_eq_true, Bool.or_eq_true, beq_iff_eq, decide_eq_true_eq] at h
  exact ⟨by tauto, by tauto⟩

/-- A firing inner 3-byte-branch detector implies two adjacent zero bytes. -/
lemma next3Cond_dz (d : List Nat) (k : Nat) (h : next3Cond d k = true) :
    d.getD k 0 = 0 ∧ d.getD (k+1) 0 = 0 := by
  rw [next3Cond] at h
  simp only [Bool.and_eq_true, Bool.or_eq_true, beq_iff_eq, decide_eq_true_eq] at h
  exact ⟨by tauto, by tauto⟩

/-- Every start-code detector of scanNALUs requires two adjacent zero
bytes; where there are none, all four detectors are silent. -/
lemma conds_false_of_not_dz (d : List Nat) (k : Nat)
    (h : ¬(d.getD k 0 = 0 ∧ d.getD (k+1) 0 = 0)) :
    code4At d k = false ∧ code3At d k = false ∧
      next4Cond d k = false ∧ next3Cond d k = false := by
  refine ⟨?_, ?_, ?_, ?_⟩
  · cases hc : code4At d k with
    | false => rfl
    | true => exact absurd (code4At_dz d k hc) h
  · cases hc : code3At d k with
    | false => rfl
    | true => exact absurd (code3At_dz d k hc) h
  · cases hc : next4Cond d k with
    | false => rfl
    | true => exact absurd (next4Cond_dz d k hc) h
  · cases hc : next3Cond d k with
    | false => rfl
    | true => exact absurd (next3Cond_dz d k hc) h

/-- Without two adjacent zero bytes at position k, both outer-loop branches
decline. -/
lemma branches_none_of_not_dz (d : List Nat) (k : Nat)
    (h : ¬(d.getD k 0 = 0 ∧ d.getD (k+1) 0 = 0)) :
    branch4 d k = none ∧ branch3 d k = none := by
  obtain ⟨h4, h3, _, _⟩ := conds_false_of_not_dz d k h
  exact ⟨by rw [branch4, h4]; simp, by rw [branch3, h3]; simp⟩

/-- The outer loop finds nothing when both branches decline at every index
the guard admits. -/
lemma scanLoop_none (d : List Nat) :
    ∀ fuel i,
      (∀ k, i ≤ k → k + 4 ≤ d.length → branch4 d k = none ∧ branch3 d k = none) →
      scanLoop d i fuel = none := by
  intro fuel
  induction fuel with
  | zero => intro i _; rfl
  | succ f ih =>
    intro i h
    rw [scanLoop]
    by_cases hg : i + 4 ≤ d.length
    · rw [if_pos hg, (h i le_rfl hg).1, (h i le_rfl hg).2]
      exact ih (i + 1) (fun k hk hkw => h k (by omega) hkw)
    · rw [if_neg hg]

/-- The outer loop returns the result of the first succeeding branch,
provided both branches decline at all earlier admissible indices and the
fuel reaches it. -/
lemma scanLoop_found (d : List Nat) :
    ∀ fuel i m r, i ≤ m → m + 4 ≤ d.length →
      (∀ k, i ≤ k → k < m → branch4 d k = none ∧ branch3 d k = none) →
      (branch4 d m = some r ∨ (branch4 d m = none ∧ branch3 d m = some r)) →
      m + 1 ≤ i + fuel →
      scanLoop d i fuel = some r := by
  intro fuel
  induction fuel with
  | zero => intro i m r h1 h2 h3 h4 h5; omega
  | succ f ih =>
    intro i m r him hg hprev hm hf
    rw [scanLoop, if_pos (by omega : i + 4 ≤ d.length)]
    rcases Nat.eq_or_lt_of_le him with rfl | hlt
    · rcases hm with hm | ⟨hm4, hm3⟩
      · rw [hm]
      · rw [hm4, hm3]
    · rw [(hprev i le_rfl hlt).1, (hprev i le_rfl hlt).2]
      exact ih (i + 1) m r hlt hg (fun k hk1 hk2 => hprev k (by omega) hk2) hm (by omega)

/-- Whatever the outer loop returns advances by at least one byte and at
most the whole buffer, and its token is the prefix of that length. -/
lemma scanLoop_some (d : List Nat) :
    ∀ fuel i a t, scanLoop d i fuel = some (a, t) →
      0 < a ∧ a ≤ d.length ∧ t = d.take a := by
  intro fuel
  induction fuel with
  | zero => intro i a t h; exact absurd h (by rw [scanLoop]; simp)
  | succ f ih =>
    intro i a t h
    rw [scanLoop] at h
    by_cases hg : i + 4 ≤ d.length
    · rw [if_pos hg] at h
      cases hb4 : branch4 d i with
      | some r4 =>
        rw [hb4] at h
        have hr : r4 = (a, t) := by simpa using h
        subst hr
        rw [branch4] at hb4
        by_cases hc4 : code4At d i = true
        · rw [if_pos hc4] at hb4
          by_cases hpos : 0 < i
          · rw [if_pos hpos] at hb4
            have h1 : i = a ∧ d.take i = t := by
              have := Option.some.inj hb4
              exact ⟨congrArg Prod.fst this, congrArg Prod.snd this⟩
            obtain ⟨rfl, rfl⟩ := h1
            exact ⟨hpos, by omega, rfl⟩
          · rw [if_neg hpos] at hb4
            cases hf4 : findNext4 d (i + 4) with
            | some j =>
              rw [hf4] at hb4
              have hb := scanFrom_some d next4Cond 4 (d.length + 1) (i + 4) j hf4
              have h1 := Option.some.inj hb4
              have ha : j = a := congrArg Prod.fst h1
              have ht : d.take j = t := congrArg Prod.snd h1
              subst ha
              exact ⟨by omega, by omega, ht.symm⟩
            | none => rw [hf4] at hb4; cases hb4
        · rw [if_neg hc4] at hb4; cases hb4
      | none =>
        rw [hb4] at h
        cases hb3 : branch3 d i with
        | some r3 =>
          rw [hb3] at h
          have hr : r3 = (a, t) := by simpa using h
          subst hr
          rw [branch3] at hb3
          by_cases hc3 : code3At d i = true
          · rw [if_pos hc3] at hb3
            by_cases hpos : 0 < i
            · rw [if_pos hpos] at hb3
              have h1 : i = a ∧ d.take i = t := by
                have := Option.some.inj hb3
                exact ⟨congrArg Prod.fst this, congrArg Prod.snd this⟩
              obtain ⟨rfl, rfl⟩ := h1
              exact ⟨hpos, by omega, rfl⟩
            · rw [if_neg hpos] at hb3
              cases hf3 : findNext3 d (i + 3) with
              | some j =>
                rw [hf3] at hb3
                have hb := scanFrom_some d next3Cond 3 (d.length + 1) (i + 3) j hf3
                have h1 := Option.some.inj hb3
                have ha : j = a := congrArg Prod.fst h1
                have ht : d.take j = t := congrArg Prod.snd h1
                subst ha
                exact ⟨by omega, by omega, ht.symm⟩
              | none => rw [hf3] at hb3; cases hb3
          · rw [if_neg hc3] at hb3; cases hb3
        | none =>
          rw [hb3] at h
          exact ih (i + 1) a t h
    · rw [if_neg hg] at h
      cases h

/-- Pointwise reading of noDZ: no index carries two adjacent zero bytes. -/
lemma noDZ_pair : ∀ (p : List Nat), noDZ p = true →
    ∀ t, t + 1 < p.length → ¬(p.getD t 0 = 0 ∧ p.getD (t+1) 0 = 0)
  | [], _, t, ht => by simp at ht
  | [a], _, t, ht => by simp at ht
  | a :: b :: q, h, 0, ht => by
    have h1 : (!(a == 0 && b == 0)) = true := by
      rw [noDZ, Bool.and_eq_true] at h
      exact h.1
    simp only [List.getD_cons_zero, List.getD_cons_succ]
    intro hc
    rw [hc.1, hc.2] at h1
    simp at h1
  | a :: b :: q, h, t + 1, ht => by
    have h2 : noDZ (b :: q) = true := by
      rw [noDZ, Bool.and_eq_true] at h
      exact h.2
    have := noDZ_pair (b :: q) h2 t (by simpa using ht)
    simpa using this

/-- A payload of a clean unit is non-empty. -/
lemma cleanPayload_ne_nil {p : List Nat} (hp : cleanPayload p = true) : p ≠ [] := by
  rw [cleanPayload] at hp
  simp only [Bool.and_eq_true, Bool.not_eq_true'] at hp
  intro he
  subst he
  simp at hp

/-- A clean payload has no two adjacent zero bytes. -/
lemma cleanPayload_noDZ {p : List Nat} (hp : cleanPayload p = true) :
    noDZ p = true := by
  rw [cleanPayload] at hp
  simp only [Bool.and_eq_true] at hp
  tauto

/-- A clean payload ends in a non-zero byte. -/
lemma cleanPayload_last {p : List Nat} (hp : cleanPayload p = true) :
    p.getD (p.length - 1) 0 ≠ 0 := by
  rw [cleanPayload] at hp
  simp only [Bool.and_eq_true, bne_iff_ne] at hp
  tauto

/-- Inside a window of the buffer that reads back a noDZ payload, strictly
before the payload's final byte, there are no two adjacent zero bytes. -/
lemma window_no_dz_strict (d p : List Nat) (a : Nat) (hp : noDZ p = true)
    (hget : ∀ t, t < p.length → d.getD (a + t) 0 = p.getD t 0)
    (k : Nat) (h1 : a ≤ k) (h2 : k + 1 < a + p.length) :
    ¬(d.getD k 0 = 0 ∧ d.getD (k+1) 0 = 0) := by
  have ht : k = a + (k - a) := by omega
  set t := k - a with hta
  have htlt : t + 1 < p.length := by omega
  have e1 : d.getD k 0 = p.getD t 0 := by
    rw [ht]
    exact hget t (by omega)
  have e2 : d.getD (k + 1) 0 = p.getD (t + 1) 0 := by
    have : k + 1 = a + (t + 1) := by omega
    rw [this]
    exact hget (t + 1) (by omega)
  rw [e1, e2]
  exact noDZ_pair p hp t htlt

/-- Inside a window of the buffer that reads back a clean payload there are
no two adjacent zero bytes, up to and including the payload's final byte. -/
lemma window_no_dz (d p : List Nat) (a : Nat) (hp : cleanPayload p = true)
    (hget : ∀ t, t < p.length → d.getD (a + t) 0 = p.getD t 0)
    (k : Nat) (h1 : a ≤ k) (h2 : k < a + p.length) :
    ¬(d.getD k 0 = 0 ∧ d.getD (k+1) 0 = 0) := by
  by_cases hin : k + 1 < a + p.length
  · exact window_no_dz_strict d p a (cleanPayload_noDZ hp) hget k h1 hin
  · have ht : k = a + (p.length - 1) := by omega
    intro hc
    apply cleanPayload_last hp
    rw [← hget (p.length - 1) (by
      have := cleanPayload_ne_nil hp
      have := List.length_pos.mpr this
      omega), ← ht]
    exact hc.1

/-- A buffer beginning with a 4-byte-delimited clean unit, followed by
bytes that begin with another start code, splits at the junction: scanNALUs
reports exactly the leading unit, whether or not the stream has ended. -/
lemma scanNALUs_step4 (p rest : List Nat) (b : Bool) (hp : cleanPayload p = true)
    (h0 : rest.getD 0 0 = 0) (h1 : rest.getD 1 0 = 0)
    (h23 : rest.getD 2 0 = 1 ∨ (rest.getD 2 0 = 0 ∧ rest.getD 3 0 = 1))
    (hr : 4 ≤ rest.length) :
    scanNALUs (([0,0,0,1] ++ p) ++ rest) b =
      ⟨([0,0,0,1] ++ p).length, some ([0,0,0,1] ++ p), none⟩ := by
  have hplen : 0 < p.length := List.length_pos.mpr (cleanPayload_ne_nil hp)
  set B : List Nat := [0,0,0,1] ++ p with hB
  set d : List Nat := B ++ rest with hd
  have hBlen : B.length = 4 + p.length := by rw [hB]; simp [List.length_append]; omega
  have hdlen : d.length = B.length + rest.length := by rw [hd, List.length_append]
  have hdapp : d = [0,0,0,1] ++ (p ++ rest) := by rw [hd, hB, List.append_assoc]
  have hget : ∀ t, t < p.length → d.getD (4 + t) 0 = p.getD t 0 := by
    intro t htp
    rw [hdapp, List.getD_append_right [0,0,0,1] (p ++ rest) 0 (4 + t)
      (by rw [show ([0,0,0,1] : List Nat).length = 4 from rfl]; omega)]
    rw [show ([0,0,0,1] : List Nat).length = 4 from rfl, Nat.add_sub_cancel_left]
    exact List.getD_append p rest 0 t htp
  have hjun : ∀ i, d.getD (B.length + i) 0 = rest.getD i 0 := by
    intro i
    rw [hd, List.getD_append_right B rest 0 (B.length + i) (by omega),
      Nat.add_sub_cancel_left]
  have e0 : d.getD B.length 0 = 0 := by
    have h := hjun 0
    rw [Nat.add_zero] at h
    rw [h]
    exact h0
  have e1 : d.getD (B.length + 1) 0 = 0 := by rw [hjun 1]; exact h1
  have hcondm : next4Cond d B.length = true := by
    rw [next4Cond, e0, e1]
    rcases h23 with h2 | ⟨h2, h3⟩
    · have e2 : d.getD (B.length + 2) 0 = 1 := by rw [hjun 2]; exact h2
      rw [e2, decide_eq_true (by omega : B.length + 3 ≤ d.length)]
      simp
    · have e2 : d.getD (B.length + 2) 0 = 0 := by rw [hjun 2]; exact h2
      have e3 : d.getD (B.length + 3) 0 = 1 := by rw [hjun 3]; exact h3
      rw [e2, e3]
      simp
  have hprev : ∀ k, 4 ≤ k → k < B.length → next4Cond d k = false := by
    intro k hk4 hkm
    exact (conds_false_of_not_dz d k
      (window_no_dz d p 4 hp hget k hk4 (by omega))).2.2.1
  have hfind : findNext4 d 4 = some B.length := by
    rw [findNext4]
    exact scanFrom_found d next4Cond 4 (d.length + 1) 4 B.length
      (by omega) (by omega) hcondm hprev (by omega)
  have hc40 : code4At d 0 = true := by rw [hdapp]; rfl
  have hbr : branch4 d 0 = some (B.length, d.take B.length) := by
    rw [branch4, if_pos hc40, if_neg (by omega : ¬ (0:Nat) < 0)]
    simp only [Nat.zero_add]
    rw [hfind]
    rfl
  have hloop : scanLoop d 0 (d.length + 1) = some (B.length, d.take B.length) :=
    scanLoop_found d (d.length + 1) 0 0 (B.length, d.take B.length)
      le_rfl (by omega) (fun k hk1 hk2 => absurd hk2 (by omega)) (Or.inl hbr)
      (by omega)
  have htake : d.take B.length = B := by rw [hd]; exact List.take_left B rest
  rw [scanNALUs, if_neg (by omega : ¬ d.length < 4), hloop, htake]

/-- A buffer beginning with a 3-byte-delimited clean unit, followed by
bytes that begin with another start code, splits at the junction: scanNALUs
reports exactly the leading unit, whether or not the stream has ended. -/
lemma scanNALUs_step3 (p rest : List Nat) (b : Bool) (hp : cleanPayload p = true)
    (h0 : rest.getD 0 0 = 0) (h1 : rest.getD 1 0 = 0)
    (h23 : rest.getD 2 0 = 1 ∨ (rest.getD 2 0 = 0 ∧ rest.getD 3 0 = 1))
    (hr : 4 ≤ rest.length) :
    scanNALUs (([0,0,1] ++ p) ++ rest) b =
      ⟨([0,0,1] ++ p).length, some ([0,0,1] ++ p), none⟩ := by
  have hplen : 0 < p.length := List.length_pos.mpr (cleanPayload_ne_nil hp)
  set B : List Nat := [0,0,1] ++ p with hB
  set d : List Nat := B ++ rest with hd
  have hBlen : B.length = 3 + p.length := by rw [hB]; simp [List.length_append]; omega
  have hdlen : d.length = B.length + rest.length := by rw [hd, List.length_append]
  have hdapp : d = [0,0,1] ++ (p ++ rest) := by rw [hd, hB, List.append_assoc]
  have hget : ∀ t, t < p.length → d.getD (3 + t) 0 = p.getD t 0 := by
    intro t htp
    rw [hdapp, List.getD_append_right [0,0,1] (p ++ rest) 0 (3 + t)
      (by rw [show ([0,0,1] : List Nat).length = 3 from rfl]; omega)]
    rw [show ([0,0,1] : List Nat).length = 3 from rfl, Nat.add_sub_cancel_left]
    exact List.getD_append p rest 0 t htp
  have hjun : ∀ i, d.getD (B.length + i) 0 = rest.getD i 0 := by
    intro i
    rw [hd, List.getD_append_right B rest 0 (B.length + i) (by omega),
      Nat.add_sub_cancel_left]
  have e0 : d.getD B.length 0 = 0 := by
    have h := hjun 0
    rw [Nat.add_zero] at h
    rw [h]
    exact h0
  have e1 : d.getD (B.length + 1) 0 = 0 := by rw [hjun 1]; exact h1
  have hcondm : next3Cond d B.length = true := by
    rw [next3Cond, e0, e1]
    rcases h23 with h2 | ⟨h2, h3⟩
    · have e2 : d.getD (B.length + 2) 0 = 1 := by rw [hjun 2]; exact h2
      rw [e2]
      simp
    · have e2 : d.getD (B.length + 2) 0 = 0 := by rw [hjun 2]; exact h2
      have e3 : d.getD (B.length + 3) 0 = 1 := by rw [hjun 3]; exact h3
      rw [e2, e3, decide_eq_true (by omega : B.length + 4 ≤ d.length)]
      simp
  have hprev : ∀ k, 3 ≤ k → k < B.length → next3Cond d k = false := by
    intro k hk3 hkm
    exact (conds_false_of_not_dz d k
      (window_no_dz d p 3 hp hget k hk3 (by omega))).2.2.2
  have hfind : findNext3 d 3 = some B.length := by
    rw [findNext3]
    exact scanFrom_found d next3Cond 3 (d.length + 1) 3 B.length
      (by omega) (by omega) hcondm hprev (by omega)
  have hc40 : code4At d 0 = false := by rw [hdapp]; rfl
  have hbr4 : branch4 d 0 = none := by
    rw [branch4, hc40]
    simp
  have hc30 : code3At d 0 = true := by
    rw [code3At, decide_eq_true (by omega : 0 + 3 ≤ d.length), hdapp]
    rfl
  have hbr3 : branch3 d 0 = some (B.length, d.take B.length) := by
    rw [branch3, if_pos hc30, if_neg (by omega : ¬ (0:Nat) < 0)]
    simp only [Nat.zero_add]
    rw [hfind]
    rfl
  have hloop : scanLoop d 0 (d.length + 1) = some (B.length, d.take B.length) :=
    scanLoop_found d (d.length + 1) 0 0 (B.length, d.take B.length)
      le_rfl (by omega) (fun k hk1 hk2 => absurd hk2 (by omega))
      (Or.inr ⟨hbr4, hbr3⟩) (by omega)
  have htake : d.take B.length = B := by rw [hd]; exact List.take_left B rest
  rw [scanNALUs, if_neg (by omega : ¬ d.length < 4), hloop, htake]

/-- Splitting step for a clean unit of either start-code form followed by
more units. -/
lemma scanNALUs_unit_step (u : AUnit) (rest : List Nat) (b : Bool)
    (hu : cleanPayload u.payload = true)
    (h0 : rest.getD 0 0 = 0) (h1 : rest.getD 1 0 = 0)
    (h23 : rest.getD 2 0 = 1 ∨ (rest.getD 2 0 = 0 ∧ rest.getD 3 0 = 1))
    (hr : 4 ≤ rest.length) :
    scanNALUs (u.bytes ++ rest) b = ⟨u.bytes.length, some u.bytes, none⟩ := by
  cases hform : u.form with
  | three =>
    have hb : u.bytes = [0,0,1] ++ u.payload := by rw [AUnit.bytes, hform]; rfl
    rw [hb]
    exact scanNALUs_step3 u.payload rest b hu h0 h1 h23 hr
  | four =>
    have hb : u.bytes = [0,0,0,1] ++ u.payload := by rw [AUnit.bytes, hform]; rfl
    rw [hb]
    exact scanNALUs_step4 u.payload rest b hu h0 h1 h23 hr

/-- On a buffer that is a 3-byte start code followed by a boundary-free
payload, the outer loop of scanNALUs finds nothing. -/
lemma scanLoop_lead3_none (p : List Nat) (hp : noDZ p = true) :
    scanLoop ([0,0,1] ++ p) 0 (([0,0,1] ++ p).length + 1) = none := by
  set d : List Nat := [0,0,1] ++ p with hd
  have hdlen : d.length = 3 + p.length := by
    rw [hd, List.length_append]
    rw [show ([0,0,1] : List Nat).length = 3 from rfl]
  have hget : ∀ t, t < p.length → d.getD (3 + t) 0 = p.getD t 0 := by
    intro t htp
    rw [hd, List.getD_append_right [0,0,1] p 0 (3 + t)
      (by rw [show ([0,0,1] : List Nat).length = 3 from rfl]; omega)]
    rw [show ([0,0,1] : List Nat).length = 3 from rfl, Nat.add_sub_cancel_left]
  have hfind3 : findNext3 d 3 = none := by
    rw [findNext3]
    apply scanFrom_none
    intro j hj3 hjg
    exact (conds_false_of_not_dz d j
      (window_no_dz_strict d p 3 hp hget j hj3 (by omega))).2.2.2
  apply scanLoop_none
  intro k hk0 hk4
  by_cases hk3 : 3 ≤ k
  · exact branches_none_of_not_dz d k
      (window_no_dz_strict d p 3 hp hget k hk3 (by omega))
  · have hk012 : k = 0 ∨ k = 1 ∨ k = 2 := by omega
    rcases hk012 with rfl | rfl | rfl
    · constructor
      · rw [branch4, show code4At d 0 = false from by rw [hd]; rfl]
        simp
      · have hc30 : code3At d 0 = true := by
          rw [code3At, decide_eq_true (by omega : 0 + 3 ≤ d.length), hd]
          rfl
        rw [branch3, if_pos hc30, if_neg (by omega : ¬ (0:Nat) < 0)]
        simp only [Nat.zero_add]
        rw [hfind3]
        rfl
    · refine branches_none_of_not_dz d 1 ?_
      rw [hd]
      intro hc
      have : (1 : Nat) = 0 := hc.2
      cases this
    · refine branches_none_of_not_dz d 2 ?_
      rw [hd]
      intro hc
      have : (1 : Nat) = 0 := hc.1
      cases this

/-- At end of stream, a 3-byte-delimited final unit is emitted whole. -/
lemma scanNALUs_lead3_eof (p : List Nat) (hp : noDZ p = true) (hne : p ≠ []) :
    scanNALUs ([0,0,1] ++ p) true =
      ⟨([0,0,1] ++ p).length, some ([0,0,1] ++ p), none⟩ := by
  have hplen : 0 < p.length := List.length_pos.mpr hne
  have hlen : ([0,0,1] ++ p).length = 3 + p.length := by
    rw [List.length_append, show ([0,0,1] : List Nat).length = 3 from rfl]
  have hnot : ¬ ([0,0,1] ++ p).length < 4 := by omega
  have hpos : 0 < ([0,0,1] ++ p).length := by omega
  rw [scanNALUs, if_neg hnot, scanLoop_lead3_none p hp, decide_eq_true hpos]
  rfl

/-- Mid-stream, a buffer that is a 3-byte start code followed by a
boundary-free payload makes scanNALUs request more data: advance 0, no
token — whatever the buffer's length. -/
lemma scanNALUs_lead3_mid (p : List Nat) (hp : noDZ p = true) (hne : p ≠ []) :
    scanNALUs ([0,0,1] ++ p) false = ⟨0, none, none⟩ := by
  have hplen : 0 < p.length := List.length_pos.mpr hne
  have hlen : ([0,0,1] ++ p).length = 3 + p.length := by
    rw [List.length_append, show ([0,0,1] : List Nat).length = 3 from rfl]
  have hnot : ¬ ([0,0,1] ++ p).length < 4 := by omega
  rw [scanNALUs, if_neg hnot, scanLoop_lead3_none p hp]
  rfl

/-- On a buffer that is a 4-byte start code followed by a boundary-free
payload, scanNALUs falls through its failed 4-byte branch, finds the 3-byte
start code embedded at offset 1, and reports the single byte data[:1] —
splitting inside the start code, at or before end of stream alike. -/
lemma scanNALUs_lead4 (p : List Nat) (hp : noDZ p = true) (hne : p ≠ []) (b : Bool) :
    scanNALUs ([0,0,0,1] ++ p) b = ⟨1, some [0], none⟩ := by
  have hplen : 0 < p.length := List.length_pos.mpr hne
  set d : List Nat := [0,0,0,1] ++ p with hd
  have hdlen : d.length = 4 + p.length := by
    rw [hd, List.length_append, show ([0,0,0,1] : List Nat).length = 4 from rfl]
  have hget : ∀ t, t < p.length → d.getD (4 + t) 0 = p.getD t 0 := by
    intro t htp
    rw [hd, List.getD_append_right [0,0,0,1] p 0 (4 + t)
      (by rw [show ([0,0,0,1] : List Nat).length = 4 from rfl]; omega)]
    rw [show ([0,0,0,1] : List Nat).length = 4 from rfl, Nat.add_sub_cancel_left]
  have hfind4 : findNext4 d 4 = none := by
    rw [findNext4]
    apply scanFrom_none
    intro j hj4 hjg
    exact (conds_false_of_not_dz d j
      (window_no_dz_strict d p 4 hp hget j hj4 (by omega))).2.2.1
  have hbr40 : branch4 d 0 = none := by
    rw [branch4, if_pos (show code4At d 0 = true from by rw [hd]; rfl),
      if_neg (by omega : ¬ (0:Nat) < 0)]
    simp only [Nat.zero_add]
    rw [hfind4]
    rfl
  have hbr30 : branch3 d 0 = none := by
    have hc30 : code3At d 0 = false := by
      rw [code3At, show d.getD (0+2) 0 = 0 from by rw [hd]; rfl]
      simp
    rw [branch3, hc30]
    simp
  have hbr41 : branch4 d 1 = none := by
    rw [branch4, show code4At d 1 = false from by rw [hd]; rfl]
    simp
  have hbr31 : branch3 d 1 = some (1, d.take 1) := by
    have hc31 : code3At d 1 = true := by
      rw [code3At, decide_eq_true (by omega : 1 + 3 ≤ d.length), hd]
      rfl
    rw [branch3, if_pos hc31, if_pos (by omega : (0:Nat) < 1)]
  have hloop : scanLoop d 0 (d.length + 1) = some (1, d.take 1) :=
    scanLoop_found d (d.length + 1) 0 1 (1, d.take 1)
      (by omega) (by omega)
      (by
        intro k hk1 hk2
        have hk : k = 0 := by omega
        subst hk
        exact ⟨hbr40, hbr30⟩)
      (Or.inr ⟨hbr41, hbr31⟩) (by omega)
  have htake : d.take 1 = [0] := by rw [hd]; rfl
  rw [scanNALUs, if_neg (by omega : ¬ d.length < 4), hloop, htake]

/-- The driver stops on an empty buffer. -/
lemma emitAllAux_nil (fuel : Nat) : emitAllAux fuel [] = [] := by
  cases fuel with
  | zero => rfl
  | succ f => rfl

/-- Drained-stream step: a final 3-byte-delimited clean unit is emitted
whole. -/
lemma emitAllAux_last3 (p : List Nat) (hp : cleanPayload p = true) :
    ∀ fuel, ([0,0,1] ++ p).length ≤ fuel →
      emitAllAux fuel ([0,0,1] ++ p) = [[0,0,1] ++ p] := by
  intro fuel hf
  have hlen : ([0,0,1] ++ p).length = 3 + p.length := by
    rw [List.length_append, show ([0,0,1] : List Nat).length = 3 from rfl]
  obtain ⟨f, rfl⟩ : ∃ f, fuel = f + 1 := ⟨fuel - 1, by omega⟩
  rw [emitAllAux, scanNALUs_lead3_eof p (cleanPayload_noDZ hp) (cleanPayload_ne_nil hp)]
  show ([0,0,1] ++ p) :: emitAllAux f (([0,0,1] ++ p).drop ([0,0,1] ++ p).length) = _
  rw [List.drop_length, emitAllAux_nil]

/-- Drained-stream step: a final 4-byte-delimited clean unit is emitted as
the spurious [0] byte followed by the unit with a truncated 3-byte start
code. -/
lemma emitAllAux_last4 (p : List Nat) (hp : cleanPayload p = true) :
    ∀ fuel, ([0,0,0,1] ++ p).length ≤ fuel →
      emitAllAux fuel ([0,0,0,1] ++ p) = [[0], [0,0,1] ++ p] := by
  intro fuel hf
  have hplen : 0 < p.length := List.length_pos.mpr (cleanPayload_ne_nil hp)
  have hlen : ([0,0,0,1] ++ p).length = 4 + p.length := by
    rw [List.length_append, show ([0,0,0,1] : List Nat).length = 4 from rfl]
  obtain ⟨f, rfl⟩ : ∃ f, fuel = f + 1 := ⟨fuel - 1, by omega⟩
  rw [emitAllAux, scanNALUs_lead4 p (cleanPayload_noDZ hp) (cleanPayload_ne_nil hp) true]
  show [0] :: emitAllAux f (([0,0,0,1] ++ p).drop 1) = _
  have hdrop : ([0,0,0,1] ++ p).drop 1 = [0,0,1] ++ p := rfl
  rw [hdrop]
  rw [emitAllAux_last3 p hp f (by
    rw [List.length_append, show ([0,0,1] : List Nat).length = 3 from rfl]
    omega)]

/-- Drained-stream induction: for a stream of clean units the driver emits
every unit but the last at its start-code boundary, then the tailEmission
of the last unit. -/
lemma emitAllAux_stream (last : AUnit) (hl : cleanPayload last.payload = true) :
    ∀ front : List AUnit, (∀ u ∈ front, cleanPayload u.payload = true) →
      ∀ fuel, (concatUnits (front ++ [last])).length ≤ fuel →
        emitAllAux fuel (concatUnits (front ++ [last])) =
          front.map AUnit.bytes ++ tailEmission last := by
  intro front
  induction front with
  | nil =>
    intro _ fuel hf
    have hcs : concatUnits ([] ++ [last]) = last.bytes := by
      simp [concatUnits]
    rw [hcs] at hf ⊢
    cases hform : last.form with
    | three =>
      have hb : last.bytes = [0,0,1] ++ last.payload := by
        rw [AUnit.bytes, hform]; rfl
      rw [hb] at hf ⊢
      rw [emitAllAux_last3 last.payload hl fuel hf, tailEmission, hform, hb]
      rfl
    | four =>
      have hb : last.bytes = [0,0,0,1] ++ last.payload := by
        rw [AUnit.bytes, hform]; rfl
      rw [hb] at hf ⊢
      rw [emitAllAux_last4 last.payload hl fuel hf, tailEmission, hform]
      rfl
  | cons u front ih =>
    intro hclean fuel hf
    have hu : cleanPayload u.payload = true := hclean u (by simp)
    have hclean2 : ∀ w ∈ front, cleanPayload w.payload = true := by
      intro w hw
      exact hclean w (List.mem_cons_of_mem u hw)
    have hcs : concatUnits ((u :: front) ++ [last]) =
        u.bytes ++ concatUnits (front ++ [last]) := by
      simp [concatUnits]
    rw [hcs] at hf ⊢
    obtain ⟨v, vs, hv⟩ : ∃ v vs, front ++ [last] = v :: vs := by
      cases front with
      | nil => exact ⟨last, [], rfl⟩
      | cons a t => exact ⟨a, t ++ [last], rfl⟩
    have hvclean : cleanPayload v.payload = true := by
      have hvmem : v ∈ front ++ [last] := by rw [hv]; simp
      rcases List.mem_append.mp hvmem with hm | hm
      · exact hclean2 v hm
      · rw [List.mem_singleton.mp hm]
        exact hl
    have hvplen : 0 < v.payload.length :=
      List.length_pos.mpr (cleanPayload_ne_nil hvclean)
    have hrv : concatUnits (front ++ [last]) = v.bytes ++ concatUnits vs := by
      rw [hv, concatUnits, List.map_cons, List.flatten_cons]
      rfl
    have hvb3 : v.form = SCForm.three → v.bytes = [0,0,1] ++ v.payload := by
      intro hf3
      rw [AUnit.bytes, hf3]
      rfl
    have hvb4 : v.form = SCForm.four → v.bytes = [0,0,0,1] ++ v.payload := by
      intro hf4
      rw [AUnit.bytes, hf4]
      rfl
    have h0 : (concatUnits (front ++ [last])).getD 0 0 = 0 := by
      rw [hrv]
      cases hform : v.form with
      | three => rw [hvb3 hform, List.append_assoc]; rfl
      | four => rw [hvb4 hform, List.append_assoc]; rfl
    have h1 : (concatUnits (front ++ [last])).getD 1 0 = 0 := by
      rw [hrv]
      cases hform : v.form with
      | three => rw [hvb3 hform, List.append_assoc]; rfl
      | four => rw [hvb4 hform, List.append_assoc]; rfl
    have h23 : (concatUnits (front ++ [last])).getD 2 0 = 1 ∨
        ((concatUnits (front ++ [last])).getD 2 0 = 0 ∧
         (concatUnits (front ++ [last])).getD 3 0 = 1) := by
      rw [hrv]
      cases hform : v.form with
      | three => left; rw [hvb3 hform, List.append_assoc]; rfl
      | four =>
        right
        constructor
        · rw [hvb4 hform, List.append_assoc]; rfl
        · rw [hvb4 hform, List.append_assoc]; rfl
    have hr4 : 4 ≤ (concatUnits (front ++ [last])).length := by
      rw [hrv, List.length_append]
      have hb : v.bytes.length = v.form.code.length + v.payload.length := by
        rw [AUnit.bytes, List.length_append]
      have hc : 3 ≤ v.form.code.length := by
        cases v.form <;> decide
      omega
    have hstep := scanNALUs_unit_step u (concatUnits (front ++ [last])) true
      hu h0 h1 h23 hr4
    have hulen : 0 < u.bytes.length := by
      rw [AUnit.bytes, List.length_append]
      have hc : 3 ≤ u.form.code.length := by
        cases u.form <;> decide
      omega
    have hflen : (u.bytes ++ concatUnits (front ++ [last])).length =
        u.bytes.length + (concatUnits (front ++ [last])).length :=
      List.length_append _ _
    obtain ⟨f, rfl⟩ : ∃ f, fuel = f + 1 := ⟨fuel - 1, by omega⟩
    rw [emitAllAux, hstep]
    show u.bytes :: emitAllAux f
        ((u.bytes ++ concatUnits (front ++ [last])).drop u.bytes.length) = _
    rw [List.drop_left, ih hclean2 f (by omega)]
    rfl

/-- No two adjacent zero bytes in a constant non-zero buffer. -/
lemma noDZ_replicate (x : Nat) (hx : x ≠ 0) :
    ∀ n, noDZ (List.replicate n x) = true := by
  intro n
  induction n with
  | zero => rfl
  | succ m ih =>
    cases m with
    | zero => rfl
    | succ k =>
      rw [List.replicate_succ, List.replicate_succ, noDZ, ← List.replicate_succ, ih]
      rw [beq_eq_false_iff_ne.mpr hx]
      rfl

/-- Claim C10: scanNALUs is total and safe for its bufio.Scanner driver —
it always reports a nil error, never advances past the buffer, advances by
at least one byte whenever it returns a token, and a zero-length buffer at
end of stream yields advance 0 and no token. -/
theorem scanNALUs_total (d : List Nat) (b : Bool) :
    (scanNALUs d b).err = none ∧
    (scanNALUs d b).advance ≤ d.length ∧
    ((scanNALUs d b).token.isSome → 0 < (scanNALUs d b).advance) ∧
    scanNALUs [] true = ⟨0, none, none⟩ := by
  have key : (scanNALUs d b).err = none ∧ (scanNALUs d b).advance ≤ d.length ∧
      ((scanNALUs d b).token.isSome → 0 < (scanNALUs d b).advance) := by
    rw [scanNALUs]
    by_cases hlen : d.length < 4
    · rw [if_pos hlen]
      by_cases hb : (b && decide (0 < d.length)) = true
      · rw [if_pos hb]
        simp only [Bool.and_eq_true, decide_eq_true_eq] at hb
        exact ⟨rfl, le_rfl, fun _ => hb.2⟩
      · rw [if_neg hb]
        exact ⟨rfl, Nat.zero_le _, fun hs => absurd hs (by simp)⟩
    · rw [if_neg hlen]
      cases hsl : scanLoop d 0 (d.length + 1) with
      | some r =>
        obtain ⟨a, t⟩ := r
        have hb := scanLoop_some d (d.length + 1) 0 a t hsl
        exact ⟨rfl, hb.2.1, fun _ => hb.1⟩
      | none =>
        by_cases hb : (b && decide (0 < d.length)) = true
        · rw [if_pos hb]
          simp only [Bool.and_eq_true, decide_eq_true_eq] at hb
          exact ⟨rfl, le_rfl, fun _ => hb.2⟩
        · rw [if_neg hb]
          exact ⟨rfl, Nat.zero_le _, fun hs => absurd hs (by simp)⟩
  exact ⟨key.1, key.2.1, key.2.2, rfl⟩

/-- Witness for scanNALUs_total on a concrete mid-stream buffer. -/
theorem scanNALUs_total_w :
    (scanNALUs [0,0,1,5,9] false).err = none ∧
    (scanNALUs [0,0,1,5,9] false).advance ≤ ([0,0,1,5,9] : List Nat).length ∧
    ((scanNALUs [0,0,1,5,9] false).token.isSome →
      0 < (scanNALUs [0,0,1,5,9] false).advance) ∧
    scanNALUs [] true = ⟨0, none, none⟩ :=
  scanNALUs_total [0,0,1,5,9] false

/-- Claim C4 counterexample: the stream consisting of exactly one
well-formed access unit delimited by the 4-byte start code — so N = 1 —
makes the driver emit two tokens, a spurious [0] and the unit with its
start code truncated to the 3-byte form; the boundary falls inside the
start code, not at it. -/
theorem reframer_miscounts :
    emitAll ([0,0,0,1] ++ [5,5,5,5,5]) = [[0], [0,0,1,5,5,5,5,5]] ∧
    [0,0,0,1] ++ [5,5,5,5,5] = AUnit.bytes ⟨SCForm.four, [5,5,5,5,5]⟩ ∧
    cleanPayload [5,5,5,5,5] = true := by
  refine ⟨?_, ?_, ?_⟩ <;> decide

/-- Claim C4 (amended): for a stream of N clean access units (forms mixed
at will), the driver emits every unit except the last exactly at its
start-code boundary; the final unit is emitted whole when it is 3-byte
delimited (N tokens in total), but as a spurious [0] byte followed by the
unit with its start code truncated to the 3-byte form when it is 4-byte
delimited (N + 1 tokens). -/
theorem reframer_stream_emission (front : List AUnit) (last : AUnit)
    (hf : ∀ u ∈ front, cleanPayload u.payload = true)
    (hl : cleanPayload last.payload = true) :
    emitAll (concatUnits (front ++ [last])) =
      front.map AUnit.bytes ++ tailEmission last :=
  emitAllAux_stream last hl front hf (concatUnits (front ++ [last])).length le_rfl

/-- Witness for reframer_stream_emission on a concrete two-unit stream. -/
theorem reframer_stream_emission_w :
    emitAll (concatUnits ([⟨SCForm.three, [7,7]⟩] ++ [⟨SCForm.four, [5,5,5,5,5]⟩])) =
      ([⟨SCForm.three, [7,7]⟩] : List AUnit).map AUnit.bytes ++
        tailEmission ⟨SCForm.four, [5,5,5,5,5]⟩ :=
  reframer_stream_emission [⟨SCForm.three, [7,7]⟩] ⟨SCForm.four, [5,5,5,5,5]⟩
    (by decide) (by decide)

/-- Claim C1 counterexample: a unit found delimited by the 3-byte start
code is emitted with that prefix, passes the length gate, and is forwarded
unchanged — the forwarded bytes do not begin with 00 00 00 01. -/
theorem forward_keeps_3byte :
    emitAll ([0,0,1] ++ [9,9,9]) = [[0,0,1,9,9,9]] ∧
    forwardNALU [0,0,1,9,9,9] = some [0,0,1,9,9,9] ∧
    ([0,0,1,9,9,9] : List Nat).take 4 ≠ [0,0,0,1] := by
  refine ⟨?_, ?_, ?_⟩ <;> decide

/-- Claim C1 (amended): every unit the delivery loop forwards begins with a
start code, but only with the canonical 4-byte form when the unit carried
no start code at all (then one is prepended); a unit already bearing the
3-byte or the 4-byte form is forwarded with that form unchanged. -/
theorem forward_has_start_code (nalu out : List Nat)
    (h : forwardNALU nalu = some out) :
    out.take 4 = [0,0,0,1] ∨ out.take 3 = [0,0,1] := by
  rw [forwardNALU] at h
  by_cases hlen : 4 < nalu.length
  · rw [if_pos hlen] at h
    have hout : out = ensureStartCode nalu := (Option.some.inj h).symm
    subst hout
    rw [ensureStartCode]
    by_cases h4 : nalu.take 4 = [0,0,0,1]
    · rw [decide_eq_true h4]
      simp only [Bool.not_true, Bool.false_and, Bool.false_eq_true, if_false]
      exact Or.inl h4
    · rw [decide_eq_false h4]
      by_cases h3 : nalu.take 3 = [0,0,1]
      · rw [decide_eq_true h3]
        simp only [Bool.not_true, Bool.and_false, Bool.false_eq_true, if_false]
        exact Or.inr h3
      · rw [decide_eq_false h3]
        simp only [Bool.not_false, Bool.and_self, if_true]
        left
        rw [show (4:Nat) = ([0,0,0,1] : List Nat).length from rfl]
        exact List.take_left [0,0,0,1] nalu
  · rw [if_neg hlen] at h
    cases h

/-- Witness for forward_has_start_code on a unit with no start code. -/
theorem forward_has_start_code_w :
    ([0,0,0,1,9,9,9,9,9] : List Nat).take 4 = [0,0,0,1] ∨
    ([0,0,0,1,9,9,9,9,9] : List Nat).take 3 = [0,0,1] :=
  forward_has_start_code [9,9,9,9,9] [0,0,0,1,9,9,9,9,9] (by decide)

/-- Claim C2 counterexample: a mid-stream buffer far beyond the driver's
4 MiB maximum token size, a 3-byte start code followed by a boundary-free
payload: scanNALUs emits nothing at all — advance 0, no token — instead of
the whole buffer as one capped unit. -/
theorem oversized_buffer_not_emitted :
    scanNALUs ([0,0,1] ++ List.replicate 4194302 5) false = ⟨0, none, none⟩ ∧
    1024 * 1024 * 4 < (([0,0,1] ++ List.replicate 4194302 5) : List Nat).length := by
  constructor
  · exact scanNALUs_lead3_mid (List.replicate 4194302 5)
      (noDZ_replicate 5 (by decide) 4194302)
      (List.length_pos.mp (by rw [List.length_replicate]; norm_num))
  · rw [List.length_append, List.length_replicate,
      show ([0,0,1] : List Nat).length = 3 from rfl]
    norm_num

/-- Claim C2 (amended): scanNALUs has no size cap of its own.  For any
buffer longer than the driver's 4 MiB maximum token size that is a 3-byte
start code followed by a payload with no boundary, with end of stream not
reached, it suspends — advance 0, no token — so the oversized unit is never
emitted as one capped unit; the driver's bufio.Scanner then fails with
ErrTooLong once its maximum buffer size is hit. -/
theorem no_size_cap (p : List Nat) (hp : noDZ p = true)
    (hlen : 1024 * 1024 * 4 < ([0,0,1] ++ p).length) :
    scanNALUs ([0,0,1] ++ p) false = ⟨0, none, none⟩ := by
  apply scanNALUs_lead3_mid p hp
  intro he
  subst he
  have h3 : (([0,0,1] ++ ([] : List Nat)).length) = 3 := rfl
  rw [h3] at hlen
  omega

/-- Witness for no_size_cap on a concrete 4-MiB-plus buffer. -/
theorem no_size_cap_w :
    scanNALUs ([0,0,1] ++ List.replicate 4194302 5) false = ⟨0, none, none⟩ :=
  no_size_cap (List.replicate 4194302 5) (noDZ_replicate 5 (by decide) 4194302)
    (by
      rw [List.length_append, List.length_replicate,
        show ([0,0,1] : List Nat).length = 3 from rfl]
      norm_num)

end ReframerProofs

end Chimera
